import Mathlib

/-!
Verification of the student-API core: the in-memory record store
(create / list / get / update / delete over a mutex-guarded map keyed by
integer id) and the summary aggregator (consumption of a newline-delimited
JSON chunk stream from the upstream generation service).

The Go map `students : map[int]Student` is embedded as an association list
with distinct keys; the mutex serialises the handlers, so each handler is a
pure function from the store (and its request data) to a result and the new
store.  The streamed upstream response is embedded as its HTTP status code
plus the sequence of scanned lines (each either decodable into the chunk
shape or not) plus a flag telling whether the byte stream ends in a read
error (`bufio.Scanner.Err() != nil`) or in a clean EOF.
-/

namespace StudentApi

/-- The `Student` struct of `main.go`. -/
structure Student where
  id : Int
  name : String
  age : Int
  email : String
deriving DecidableEq, Repr

/-- The error outcomes a store handler can signal
(HTTP 400 "Invalid student data" and HTTP 404 "Student not found"). -/
inductive ApiError where
  | validationError
  | notFoundError
deriving DecidableEq, Repr

/-- The in-memory table `students : map[int]Student`, embedded as an
association list; reachable stores have pairwise distinct keys. -/
abbrev Store := List (Int × Student)

/-- Map lookup `students[i]`. -/
def lookupS : Store → Int → Option Student
  | [], _ => none
  | (k, v) :: rest, i => if k = i then some v else lookupS rest i

/-- Map assignment `students[k] = v`: replaces the binding when the key is
present, otherwise adds a new binding. -/
def insertS : Store → Int → Student → Store
  | [], k, v => [(k, v)]
  | (k', v') :: rest, k, v =>
      if k' = k then (k, v) :: rest else (k', v') :: insertS rest k v

/-- Map removal `delete(students, k)`. -/
def eraseS : Store → Int → Store
  | [], _ => []
  | (k', v') :: rest, k =>
      if k' = k then eraseS rest k else (k', v') :: eraseS rest k

/-- Handler `createStudent`: validates the decoded candidate
(`name != "" && email != "" && age > 0`), then under the lock assigns
`id = len(students) + 1` and inserts; returns 201 with the stored entity.
On validation failure returns 400 and leaves the store untouched. -/
def createStudent (st : Store) (c : Student) : Except ApiError Student × Store :=
  if c.name = "" ∨ c.email = "" ∨ c.age ≤ 0 then
    (.error .validationError, st)
  else
    let assigned : Student := { c with id := (st.length : Int) + 1 }
    (.ok assigned, insertS st assigned.id assigned)

/-- Handler `getStudents`: snapshot list of all current entities
(iteration order of the underlying list). -/
def getStudents (st : Store) : List Student :=
  st.map Prod.snd

/-- Handler `getStudent`: the entity for `i`, or 404 when absent. -/
def getStudent (st : Store) (i : Int) : Except ApiError Student :=
  match lookupS st i with
  | some s => .ok s
  | none => .error .notFoundError

/-- Handler `updateStudent`: validates the candidate exactly as
`createStudent` does (before the existence check, as in the source), then
404 when `i` is absent, otherwise stores the candidate with `updated.ID = id`
forced to the path id and returns it. -/
def updateStudent (st : Store) (i : Int) (c : Student) : Except ApiError Student × Store :=
  if c.name = "" ∨ c.email = "" ∨ c.age ≤ 0 then
    (.error .validationError, st)
  else
    match lookupS st i with
    | none => (.error .notFoundError, st)
    | some _ =>
        let updated : Student := { c with id := i }
        (.ok updated, insertS st i updated)

/-- Handler `deleteStudent`: 404 when `i` is absent, otherwise removes the
entry and returns 204. -/
def deleteStudent (st : Store) (i : Int) : Except ApiError Unit × Store :=
  match lookupS st i with
  | none => (.error .notFoundError, st)
  | some _ => (.ok (), eraseS st i)

/-- The store states reachable from the initial empty map through successful
mutating handler calls (`getStudent`/`getStudents` read the store without
changing it). -/
inductive Reachable : Store → Prop where
  | init : Reachable []
  | create {st c s st'} : Reachable st →
      createStudent st c = (.ok s, st') → Reachable st'
  | update {st i c u st'} : Reachable st →
      updateStudent st i c = (.ok u, st') → Reachable st'
  | delete {st i st'} : Reachable st →
      deleteStudent st i = (.ok (), st') → Reachable st'

/-- The store invariant of the spec: keys are pairwise distinct, every
entity's `id` equals the key it is stored under, the ids of stored entities
are pairwise distinct, and every stored entity has `id > 0`, non-empty
`name` and `email`, and `age > 0`. -/
def storeInv (st : Store) : Prop :=
  (st.map Prod.fst).Nodup ∧
  (∀ p ∈ st, p.2.id = p.1) ∧
  (st.map fun p => p.2.id).Nodup ∧
  ∀ p ∈ st, 0 < p.2.id ∧ p.2.name ≠ "" ∧ p.2.email ≠ "" ∧ 0 < p.2.age

instance (st : Store) : Decidable (storeInv st) := by
  unfold storeInv; infer_instance

/-- One decoded unit of the upstream stream: the anonymous
`struct { Response string; Done bool }` of `getStudentSummary`. -/
structure GenerationChunk where
  response : String
  done : Bool
deriving DecidableEq, Repr

/-- One line handed out by `scanner.Text()`: either it decodes into the
chunk shape (`json.Unmarshal` succeeds) or it does not. -/
inductive Line where
  | valid : GenerationChunk → Line
  | invalid : Line
deriving DecidableEq, Repr

/-- What `getStudentSummary` sends back for a given upstream response:
either 200 with the aggregated summary, or one of the three 500 failures of
the streaming part ("Ollama returned status %d", "Failed to parse Ollama
response chunk", "Error reading Ollama response stream"). -/
inductive SummaryOutcome where
  | ok : String → SummaryOutcome
  | statusError : Nat → SummaryOutcome
  | decodeError : SummaryOutcome
  | readError : SummaryOutcome
deriving DecidableEq, Repr

/-- The upstream HTTP response as the aggregator observes it: the status
code, the lines the scanner would produce in order, and whether the byte
stream terminates in a non-EOF read error (`scanner.Err() != nil` once the
lines are exhausted) rather than a clean EOF. -/
structure UpstreamResponse where
  statusCode : Nat
  lines : List Line
  readErr : Bool
deriving DecidableEq, Repr

/-- The scan loop of `getStudentSummary`: for each scanned line, decode it
(500 on failure), append `chunk.Response` to the builder, break on
`chunk.Done`; when the scanner stops, 500 if `scanner.Err() != nil`, else
200 with the accumulated text.  The second component counts the lines the
scanner actually produced, i.e. how far the stream was consumed. -/
def scanLoop : List Line → Bool → String → SummaryOutcome × Nat
  | [], readErr, acc => (if readErr then .readError else .ok acc, 0)
  | .invalid :: _, _, _ => (.decodeError, 1)
  | .valid c :: rest, readErr, acc =>
      if c.done then (.ok (acc ++ c.response), 1)
      else
        let r := scanLoop rest readErr (acc ++ c.response)
        (r.1, r.2 + 1)

/-- The streaming part of handler `getStudentSummary`: reject a non-200
status outright ("Ollama returned status %d") without reading the body,
otherwise run the scan loop on the body with an empty builder. -/
def getStudentSummary (resp : UpstreamResponse) : SummaryOutcome × Nat :=
  if resp.statusCode ≠ 200 then (.statusError resp.statusCode, 0)
  else scanLoop resp.lines resp.readErr ""

/-- Concatenation of the `response` fields of a chunk list, in order. -/
def concatResponses : List GenerationChunk → String
  | [] => ""
  | c :: rest => c.response ++ concatResponses rest

/-! ### Lemmas about the association-list map -/

theorem lookupS_insertS_self (st : Store) (k : Int) (v : Student) :
    lookupS (insertS st k v) k = some v := by
  induction st with
  | nil => simp [insertS, lookupS]
  | cons p rest ih =>
    obtain ⟨k', v'⟩ := p
    by_cases h : k' = k
    · simp [insertS, h, lookupS]
    · simp [insertS, h, lookupS, ih]

theorem lookupS_insertS_ne (st : Store) (k k' : Int) (v : Student) (h : k' ≠ k) :
    lookupS (insertS st k v) k' = lookupS st k' := by
  induction st with
  | nil => simp [insertS, lookupS, Ne.symm h]
  | cons p rest ih =>
    obtain ⟨k₀, v₀⟩ := p
    by_cases hk : k₀ = k
    · subst hk
      simp [insertS, lookupS, Ne.symm h]
    · simp only [insertS, if_neg hk, lookupS]
      by_cases hk' : k₀ = k'
      · simp [hk']
      · simp [hk', ih]

theorem lookupS_eraseS_self (st : Store) (k : Int) :
    lookupS (eraseS st k) k = none := by
  induction st with
  | nil => simp [eraseS, lookupS]
  | cons p rest ih =>
    obtain ⟨k', v'⟩ := p
    by_cases h : k' = k
    · simp [eraseS, h, ih]
    · simp [eraseS, h, lookupS, ih]

theorem lookupS_eraseS_ne (st : Store) (k k' : Int) (h : k' ≠ k) :
    lookupS (eraseS st k) k' = lookupS st k' := by
  induction st with
  | nil => simp [eraseS]
  | cons p rest ih =>
    obtain ⟨k₀, v₀⟩ := p
    by_cases hk : k₀ = k
    · subst hk
      simp [eraseS, lookupS, Ne.symm h, ih]
    · simp only [eraseS, if_neg hk, lookupS]
      by_cases hk' : k₀ = k'
      · simp [hk']
      · simp [hk', ih]

theorem mem_insertS (st : Store) (k : Int) (v : Student) (p : Int × Student)
    (h : p ∈ insertS st k v) : p = (k, v) ∨ p ∈ st := by
  induction st with
  | nil =>
    simp [insertS] at h
    exact Or.inl h
  | cons q rest ih =>
    obtain ⟨k₀, v₀⟩ := q
    by_cases hk : k₀ = k
    · simp only [insertS, if_pos hk, List.mem_cons] at h
      rcases h with h | h
      · exact Or.inl h
      · exact Or.inr (List.mem_cons_of_mem _ h)
    · simp only [insertS, if_neg hk, List.mem_cons] at h
      rcases h with h | h
      · exact Or.inr (by simp [h])
      · rcases ih h with h' | h'
        · exact Or.inl h'
        · exact Or.inr (List.mem_cons_of_mem _ h')

theorem keys_insertS (st : Store) (k : Int) (v : Student) :
    (insertS st k v).map Prod.fst =
      if k ∈ st.map Prod.fst then st.map Prod.fst else st.map Prod.fst ++ [k] := by
  induction st with
  | nil => simp [insertS]
  | cons p rest ih =>
    obtain ⟨k₀, v₀⟩ := p
    by_cases hk : k₀ = k
    · simp [insertS, hk]
    · simp only [insertS, if_neg hk, List.map_cons, ih]
      by_cases hmem : k ∈ rest.map Prod.fst
      · simp [hmem, Ne.symm hk]
      · simp [hmem, Ne.symm hk]

theorem keys_insertS_nodup (st : Store) (k : Int) (v : Student)
    (h : (st.map Prod.fst).Nodup) : ((insertS st k v).map Prod.fst).Nodup := by
  rw [keys_insertS]
  by_cases hmem : k ∈ st.map Prod.fst
  · simpa [hmem]
  · simpa [hmem, List.nodup_append]

theorem eraseS_sublist (st : Store) (k : Int) : (eraseS st k).Sublist st := by
  induction st with
  | nil => simp [eraseS]
  | cons p rest ih =>
    obtain ⟨k₀, v₀⟩ := p
    by_cases hk : k₀ = k
    · simpa [eraseS, hk] using ih.cons (k₀, v₀)
    · simpa [eraseS, hk] using ih.cons₂ (k₀, v₀)

theorem mem_eraseS (st : Store) (k : Int) (p : Int × Student)
    (h : p ∈ eraseS st k) : p ∈ st :=
  (eraseS_sublist st k).subset h

theorem lookupS_mem (st : Store) (k : Int) (v : Student)
    (h : lookupS st k = some v) : (k, v) ∈ st := by
  induction st with
  | nil => simp [lookupS] at h
  | cons p rest ih =>
    obtain ⟨k₀, v₀⟩ := p
    by_cases hk : k₀ = k
    · subst hk
      simp only [lookupS, if_true, eq_self_iff_true, reduceIte] at h
      cases Option.some.inj h
      exact List.mem_cons_self _ _
    · simp only [lookupS, if_neg hk] at h
      exact List.mem_cons_of_mem _ (ih h)

theorem mem_lookupS (st : Store) (k : Int) (v : Student)
    (hnd : (st.map Prod.fst).Nodup) (h : (k, v) ∈ st) : lookupS st k = some v := by
  induction st with
  | nil => simp at h
  | cons p rest ih =>
    obtain ⟨k₀, v₀⟩ := p
    simp only [List.map_cons, List.nodup_cons] at hnd
    rcases List.mem_cons.mp h with h | h
    · obtain ⟨rfl, rfl⟩ := Prod.mk.injEq .. ▸ h
      simp [lookupS]
    · have hk : k₀ ≠ k := by
        rintro rfl
        exact hnd.1 (List.mem_map.mpr ⟨(k₀, v), h, rfl⟩)
      simp [lookupS, hk, ih hnd.2 h]

theorem lookupS_isSome_of_mem_keys (st : Store) (k : Int)
    (h : k ∈ st.map Prod.fst) : ∃ v, lookupS st k = some v := by
  induction st with
  | nil => simp at h
  | cons p rest ih =>
    obtain ⟨k₀, v₀⟩ := p
    by_cases hk : k₀ = k
    · exact ⟨v₀, by simp [lookupS, hk]⟩
    · simp only [List.map_cons, List.mem_cons] at h
      rcases h with h | h
      · exact absurd h.symm hk
      · simpa [lookupS, hk] using ih h

/-! ### Invariant preservation -/

theorem storeInv_nil : storeInv [] := by
  simp [storeInv]

theorem storeInv_insertS (st : Store) (k : Int) (v : Student)
    (hinv : storeInv st) (hid : v.id = k) (hk : 0 < k)
    (hn : v.name ≠ "") (he : v.email ≠ "") (ha : 0 < v.age) :
    storeInv (insertS st k v) := by
  obtain ⟨hnd, hkey, _, hfields⟩ := hinv
  have hnd' : ((insertS st k v).map Prod.fst).Nodup := keys_insertS_nodup st k v hnd
  have hkey' : ∀ p ∈ insertS st k v, p.2.id = p.1 := by
    intro p hp
    rcases mem_insertS st k v p hp with rfl | hp'
    · exact hid
    · exact hkey p hp'
  refine ⟨hnd', hkey', ?_, ?_⟩
  · have : ((insertS st k v).map fun p => p.2.id) = (insertS st k v).map Prod.fst :=
      List.map_congr_left fun p hp => hkey' p hp
    rw [this]; exact hnd'
  · intro p hp
    rcases mem_insertS st k v p hp with rfl | hp'
    · exact ⟨hid ▸ hk, hn, he, ha⟩
    · exact hfields p hp'

theorem storeInv_eraseS (st : Store) (k : Int) (hinv : storeInv st) :
    storeInv (eraseS st k) := by
  obtain ⟨hnd, hkey, hids, hfields⟩ := hinv
  exact ⟨hnd.sublist ((eraseS_sublist st k).map Prod.fst),
    fun p hp => hkey p (mem_eraseS st k p hp),
    hids.sublist ((eraseS_sublist st k).map _),
    fun p hp => hfields p (mem_eraseS st k p hp)⟩

theorem storeInv_create (st : Store) (c s : Student) (st' : Store)
    (hinv : storeInv st) (h : createStudent st c = (.ok s, st')) :
    storeInv st' := by
  by_cases hval : c.name = "" ∨ c.email = "" ∨ c.age ≤ 0
  · simp [createStudent, hval] at h
  · simp only [createStudent, if_neg hval, Prod.mk.injEq, Except.ok.injEq] at h
    obtain ⟨rfl, rfl⟩ := h
    push_neg at hval
    exact storeInv_insertS st _ _ hinv rfl (by positivity) hval.1 hval.2.1 hval.2.2

theorem storeInv_update (st : Store) (i : Int) (c u : Student) (st' : Store)
    (hinv : storeInv st) (h : updateStudent st i c = (.ok u, st')) :
    storeInv st' := by
  by_cases hval : c.name = "" ∨ c.email = "" ∨ c.age ≤ 0
  · simp [updateStudent, hval] at h
  · cases hlk : lookupS st i with
    | none => simp [updateStudent, hval, hlk] at h
    | some s₀ =>
      simp only [updateStudent, if_neg hval, hlk, Prod.mk.injEq, Except.ok.injEq] at h
      obtain ⟨rfl, rfl⟩ := h
      push_neg at hval
      have hmem : (i, s₀) ∈ st := lookupS_mem st i s₀ hlk
      have hpos : 0 < i := by
        have h1 := (hinv.2.2.2 (i, s₀) hmem).1
        rw [hinv.2.1 (i, s₀) hmem] at h1
        exact h1
      exact storeInv_insertS st _ _ hinv rfl hpos hval.1 hval.2.1 hval.2.2

theorem storeInv_delete (st : Store) (i : Int) (st' : Store)
    (hinv : storeInv st) (h : deleteStudent st i = (.ok (), st')) :
    storeInv st' := by
  cases hlk : lookupS st i with
  | none => simp [deleteStudent, hlk] at h
  | some s₀ =>
    simp only [deleteStudent, hlk, Prod.mk.injEq, true_and] at h
    exact h ▸ storeInv_eraseS st i hinv

theorem reachable_storeInv (st : Store) (h : Reachable st) : storeInv st := by
  induction h with
  | init => exact storeInv_nil
  | create _ hop ih => exact storeInv_create _ _ _ _ ih hop
  | update _ hop ih => exact storeInv_update _ _ _ _ _ ih hop
  | delete _ hop ih => exact storeInv_delete _ _ _ ih hop

/-! ### Lemmas about the scan loop -/

theorem scanLoop_notdone (chunks : List GenerationChunk) (readErr : Bool) (acc : String)
    (h : ∀ c ∈ chunks, c.done = false) :
    scanLoop (chunks.map Line.valid) readErr acc =
      (if readErr then .readError else .ok (acc ++ concatResponses chunks),
        chunks.length) := by
  induction chunks generalizing acc with
  | nil => simp [scanLoop, concatResponses]
  | cons c rest ih =>
    have hc : c.done = false := h c (by simp)
    have hrest : ∀ c' ∈ rest, c'.done = false := fun c' hc' => h c' (by simp [hc'])
    simp [scanLoop, hc, ih (acc ++ c.response) hrest, concatResponses,
      String.append_assoc]

theorem scanLoop_done (pre : List GenerationChunk) (c : GenerationChunk)
    (post : List Line) (readErr : Bool) (acc : String)
    (hpre : ∀ ch ∈ pre, ch.done = false) (hc : c.done = true) :
    scanLoop (pre.map Line.valid ++ Line.valid c :: post) readErr acc =
      (.ok (acc ++ (concatResponses pre ++ c.response)), pre.length + 1) := by
  induction pre generalizing acc with
  | nil => simp [scanLoop, hc, concatResponses]
  | cons d rest ih =>
    have hd : d.done = false := hpre d (by simp)
    have hrest : ∀ ch ∈ rest, ch.done = false := fun ch hch => hpre ch (by simp [hch])
    simp [scanLoop, hd, ih (acc ++ d.response) hrest, concatResponses,
      String.append_assoc]

theorem scanLoop_invalid (pre : List GenerationChunk) (post : List Line)
    (readErr : Bool) (acc : String) (hpre : ∀ ch ∈ pre, ch.done = false) :
    scanLoop (pre.map Line.valid ++ Line.invalid :: post) readErr acc =
      (.decodeError, pre.length + 1) := by
  induction pre generalizing acc with
  | nil => simp [scanLoop]
  | cons d rest ih =>
    have hd : d.done = false := hpre d (by simp)
    have hrest : ∀ ch ∈ rest, ch.done = false := fun ch hch => hpre ch (by simp [hch])
    simp [scanLoop, hd, ih (acc ++ d.response) hrest]

/-! ### Helper lemmas for the invariant over the handlers' result stores -/

theorem storeInv_create_result (st : Store) (c : Student) (hinv : storeInv st) :
    storeInv (createStudent st c).2 := by
  by_cases hval : c.name = "" ∨ c.email = "" ∨ c.age ≤ 0
  · simpa [createStudent, hval] using hinv
  · simp only [createStudent, if_neg hval]
    push_neg at hval
    exact storeInv_insertS st _ _ hinv rfl (by positivity) hval.1 hval.2.1 hval.2.2

theorem storeInv_update_result (st : Store) (i : Int) (c : Student)
    (hinv : storeInv st) : storeInv (updateStudent st i c).2 := by
  by_cases hval : c.name = "" ∨ c.email = "" ∨ c.age ≤ 0
  · simpa [updateStudent, hval] using hinv
  · cases hlk : lookupS st i with
    | none => simpa [updateStudent, hval, hlk] using hinv
    | some s₀ =>
      simp only [updateStudent, if_neg hval, hlk]
      push_neg at hval
      have hmem : (i, s₀) ∈ st := lookupS_mem st i s₀ hlk
      have hpos : 0 < i := by
        have h1 := (hinv.2.2.2 (i, s₀) hmem).1
        rw [hinv.2.1 (i, s₀) hmem] at h1
        exact h1
      exact storeInv_insertS st _ _ hinv rfl hpos hval.1 hval.2.1 hval.2.2

theorem storeInv_delete_result (st : Store) (i : Int) (hinv : storeInv st) :
    storeInv (deleteStudent st i).2 := by
  cases hlk : lookupS st i with
  | none => simpa [deleteStudent, hlk] using hinv
  | some s₀ =>
    simp only [deleteStudent, hlk]
    exact storeInv_eraseS st i hinv

theorem storeInv_id_unique (st : Store) (hinv : storeInv st) (k : Int) (v : Student)
    (hlk : lookupS st k = some v) (hvk : v.id = k) (p : Int × Student)
    (hp : p ∈ st) (hid : p.2.id = v.id) : p = (k, v) := by
  have hkey := hinv.2.1 p hp
  have hk1 : p.1 = k := by rw [← hkey, hid, hvk]
  have hl2 : lookupS st p.1 = some p.2 :=
    mem_lookupS st p.1 p.2 hinv.1 (by simpa using hp)
  rw [hk1, hlk] at hl2
  have hv2 : p.2 = v := (Option.some.inj hl2).symm
  calc p = (p.1, p.2) := rfl
    _ = (k, v) := by rw [hk1, hv2]

/-! ### Claim theorems -/

/-- C1: for every reachable store (including states produced by earlier
deletes), a successful `createStudent` stores the returned entity under its
assigned id and that id is unique among the entities in the store when the
handler returns: any stored entry carrying the returned id is the returned
entry itself. -/
theorem C1_create_id_unique (st : Store) (c s : Student) (st' : Store)
    (hr : Reachable st) (h : createStudent st c = (.ok s, st')) :
    lookupS st' s.id = some s ∧ ∀ p ∈ st', p.2.id = s.id → p = (s.id, s) := by
  have hinv' : storeInv st' := storeInv_create st c s st' (reachable_storeInv st hr) h
  by_cases hval : c.name = "" ∨ c.email = "" ∨ c.age ≤ 0
  · simp [createStudent, hval] at h
  · simp only [createStudent, if_neg hval, Prod.mk.injEq, Except.ok.injEq] at h
    obtain ⟨rfl, rfl⟩ := h
    refine ⟨lookupS_insertS_self st _ _, ?_⟩
    exact fun p hp hid =>
      storeInv_id_unique _ hinv' _ _ (lookupS_insertS_self st _ _) rfl p hp hid

/-- Witness for C1: the run create("ann"), create("bob"), delete(1),
create("cat") reaches the store `[(2, bob)]` through a delete, the last
create reassigns id 2 (population size 1 plus 1) overwriting bob, and the
returned id 2 is unique in the resulting store. -/
theorem C1_create_id_unique_witness :
    lookupS [((2 : Int), Student.mk 2 "cat" 23 "cat@mail")] 2 =
        some (Student.mk 2 "cat" 23 "cat@mail") ∧
    ∀ p ∈ [((2 : Int), Student.mk 2 "cat" 23 "cat@mail")],
      p.2.id = 2 → p = (2, Student.mk 2 "cat" 23 "cat@mail") :=
  C1_create_id_unique [((2 : Int), Student.mk 2 "bob" 22 "bob@mail")]
    (Student.mk 0 "cat" 23 "cat@mail") (Student.mk 2 "cat" 23 "cat@mail")
    [((2 : Int), Student.mk 2 "cat" 23 "cat@mail")]
    (Reachable.delete
      (Reachable.create
        (Reachable.create Reachable.init
          (rfl :
            createStudent [] (Student.mk 0 "ann" 20 "ann@mail") =
              (.ok (Student.mk 1 "ann" 20 "ann@mail"),
                [((1 : Int), Student.mk 1 "ann" 20 "ann@mail")])))
        (rfl :
          createStudent [((1 : Int), Student.mk 1 "ann" 20 "ann@mail")]
              (Student.mk 0 "bob" 22 "bob@mail") =
            (.ok (Student.mk 2 "bob" 22 "bob@mail"),
              [((1 : Int), Student.mk 1 "ann" 20 "ann@mail"),
               ((2 : Int), Student.mk 2 "bob" 22 "bob@mail")])))
      (rfl :
        deleteStudent
            [((1 : Int), Student.mk 1 "ann" 20 "ann@mail"),
             ((2 : Int), Student.mk 2 "bob" 22 "bob@mail")] 1 =
          (.ok (), [((2 : Int), Student.mk 2 "bob" 22 "bob@mail")])))
    rfl

/-- C2: when the stream is a run of decodable not-done chunks followed by the
first done chunk and then arbitrary further lines, the aggregator returns the
concatenation of the `response` texts up to and including the terminal chunk
with HTTP 200, and exactly `pre.length + 1` lines are consumed — nothing
after the terminal chunk is parsed or contributes, whatever the remaining
lines or the stream's eventual read error would have been. -/
theorem C2_aggregator_concat (pre : List GenerationChunk) (c : GenerationChunk)
    (post : List Line) (readErr : Bool)
    (hpre : ∀ ch ∈ pre, ch.done = false) (hc : c.done = true) :
    getStudentSummary ⟨200, pre.map Line.valid ++ Line.valid c :: post, readErr⟩ =
      (.ok (concatResponses pre ++ c.response), pre.length + 1) := by
  have h := scanLoop_done pre c post readErr "" hpre hc
  rw [String.empty_append] at h
  simpa [getStudentSummary] using h

/-- Witness for C2: the spec's scenario; the stream
`{"response":"Hello ","done":false}`, `{"response":"world.","done":true}`,
`{"response":"ignored","done":false}` yields exactly "Hello world." and only
the first two lines are consumed. -/
theorem C2_aggregator_concat_witness :
    getStudentSummary ⟨200,
      [Line.valid ⟨"Hello ", false⟩, Line.valid ⟨"world.", true⟩,
       Line.valid ⟨"ignored", false⟩], false⟩ = (.ok "Hello world.", 2) :=
  C2_aggregator_concat [⟨"Hello ", false⟩] ⟨"world.", true⟩
    [Line.valid ⟨"ignored", false⟩] false (by decide) rfl

/-- C3 counterexample: a stream that ends cleanly (EOF, no read error) after
the single chunk `{"response":"partial","done":false}` and before any done
chunk makes the aggregator return HTTP 200 with the partially accumulated
text "partial" — a success, not an `IncompleteStreamError`-style failure:
`bufio.Scanner.Err()` is nil on clean EOF, so the code falls through to the
success path. -/
theorem C3_counterexample :
    getStudentSummary ⟨200, [Line.valid ⟨"partial", false⟩], false⟩ =
      (.ok "partial", 1) := rfl

/-- C3 (amended): if the underlying byte stream errors before any chunk with
`done == true`, the aggregator fails with the stream-read error and returns
no text; but if the stream merely ends (clean EOF) before any done chunk, the
aggregator returns the partially accumulated text as a success. -/
theorem C3_amended_incomplete_stream (chunks : List GenerationChunk)
    (hch : ∀ ch ∈ chunks, ch.done = false) :
    getStudentSummary ⟨200, chunks.map Line.valid, true⟩ =
      (.readError, chunks.length) ∧
    getStudentSummary ⟨200, chunks.map Line.valid, false⟩ =
      (.ok (concatResponses chunks), chunks.length) := by
  have h1 := scanLoop_notdone chunks true "" hch
  have h2 := scanLoop_notdone chunks false "" hch
  rw [if_pos rfl] at h1
  rw [if_neg (by simp), String.empty_append] at h2
  exact ⟨by simpa [getStudentSummary] using h1, by simpa [getStudentSummary] using h2⟩

/-- Witness for the amended C3: on the single not-done chunk "oops", a read
error yields the read failure, a clean EOF yields 200 with "oops". -/
theorem C3_amended_incomplete_stream_witness :
    getStudentSummary ⟨200, [Line.valid ⟨"oops", false⟩], true⟩ =
      (.readError, 1) ∧
    getStudentSummary ⟨200, [Line.valid ⟨"oops", false⟩], false⟩ =
      (.ok "oops", 1) :=
  C3_amended_incomplete_stream [⟨"oops", false⟩] (by decide)

/-- C4: on any upstream response whose status is not a success status
(outside 2xx; the code accepts exactly 200), the aggregator fails with the
status error carrying the upstream code and consumes zero lines of the
body. -/
theorem C4_status_error (resp : UpstreamResponse)
    (h : ¬(200 ≤ resp.statusCode ∧ resp.statusCode < 300)) :
    getStudentSummary resp = (.statusError resp.statusCode, 0) := by
  have hne : resp.statusCode ≠ 200 := by
    intro h200
    exact h (by omega)
  simp [getStudentSummary, hne]

/-- Witness for C4: upstream 503 with a non-empty body yields
`statusError 503` and no chunk is read. -/
theorem C4_status_error_witness :
    getStudentSummary ⟨503, [Line.valid ⟨"x", false⟩], false⟩ =
      (.statusError 503, 0) :=
  C4_status_error ⟨503, [Line.valid ⟨"x", false⟩], false⟩ (by decide)

/-- C5: a line that does not decode into the chunk shape, met before any done
chunk, makes the whole operation fail with the decode error — the outcome
carries no text, so everything accumulated from the preceding chunks is
discarded, and consumption stops at the offending line. -/
theorem C5_decode_error (pre : List GenerationChunk) (post : List Line)
    (readErr : Bool) (hpre : ∀ ch ∈ pre, ch.done = false) :
    getStudentSummary ⟨200, pre.map Line.valid ++ Line.invalid :: post, readErr⟩ =
      (.decodeError, pre.length + 1) := by
  simpa [getStudentSummary] using scanLoop_invalid pre post readErr "" hpre

/-- Witness for C5: the spec's scenario; a valid not-done chunk "acc"
followed by the line `not-json` yields the decode failure with no partial
text. -/
theorem C5_decode_error_witness :
    getStudentSummary ⟨200, [Line.valid ⟨"acc", false⟩, Line.invalid], false⟩ =
      (.decodeError, 2) :=
  C5_decode_error [⟨"acc", false⟩] [] false (by decide)

/-- C6: the store invariant (distinct keys, id equal to key, distinct ids,
id positive, name/email non-empty, age positive) holds for the initial empty
store and is preserved by every `createStudent`, `updateStudent` and
`deleteStudent` call, whether it succeeds or fails; `getStudent` and
`getStudents` read the store without producing a new one, so they preserve
it by construction. -/
theorem C6_invariant_preserved :
    storeInv ([] : Store) ∧
    (∀ st c, storeInv st → storeInv (createStudent st c).2) ∧
    (∀ st i c, storeInv st → storeInv (updateStudent st i c).2) ∧
    ∀ st i, storeInv st → storeInv (deleteStudent st i).2 :=
  ⟨storeInv_nil,
   fun st c hinv => storeInv_create_result st c hinv,
   fun st i c hinv => storeInv_update_result st i c hinv,
   fun st i hinv => storeInv_delete_result st i hinv⟩

/-- Witness for C6: a concrete create on a concrete invariant-satisfying
store produces an invariant-satisfying store. -/
theorem C6_invariant_preserved_witness :
    storeInv
      ((createStudent [((1 : Int), Student.mk 1 "ann" 20 "ann@mail")]
        (Student.mk 0 "bob" 22 "bob@mail")).2) :=
  C6_invariant_preserved.2.1 [((1 : Int), Student.mk 1 "ann" 20 "ann@mail")]
    (Student.mk 0 "bob" 22 "bob@mail") (by decide)

/-- C7: for a candidate passing validation, `updateStudent` on a present id
stores the candidate with its id forced to the path id, returns it, and a
subsequent `getStudent` on that id returns it; on an absent id it fails with
the not-found error. -/
theorem C7_update_semantics (st : Store) (i : Int) (c : Student)
    (hv : ¬(c.name = "" ∨ c.email = "" ∨ c.age ≤ 0)) :
    (∀ s₀, lookupS st i = some s₀ →
        updateStudent st i c =
          (.ok { c with id := i }, insertS st i { c with id := i }) ∧
        getStudent (updateStudent st i c).2 i = .ok { c with id := i }) ∧
    (lookupS st i = none → updateStudent st i c = (.error .notFoundError, st)) := by
  constructor
  · intro s₀ hlk
    have hup : updateStudent st i c =
        (.ok { c with id := i }, insertS st i { c with id := i }) := by
      simp [updateStudent, hv, hlk]
    refine ⟨hup, ?_⟩
    rw [hup]
    simp [getStudent, lookupS_insertS_self]
  · intro hlk
    simp [updateStudent, hv, hlk]

/-- Witness for C7: updating id 1 with a candidate whose payload id is 99
stores and returns the candidate with id forced to 1. -/
theorem C7_update_semantics_witness :
    updateStudent [((1 : Int), Student.mk 1 "ann" 20 "ann@mail")] 1
        (Student.mk 99 "bob" 22 "bob@mail") =
      (.ok (Student.mk 1 "bob" 22 "bob@mail"),
        [((1 : Int), Student.mk 1 "bob" 22 "bob@mail")]) :=
  (((C7_update_semantics [((1 : Int), Student.mk 1 "ann" 20 "ann@mail")] 1
      (Student.mk 99 "bob" 22 "bob@mail") (by decide)).1
    (Student.mk 1 "ann" 20 "ann@mail") rfl).1)

/-- C8: a candidate with `age == 0`, negative age, empty name or empty email
makes `createStudent` fail with the validation error and return the store
unchanged (in particular the population size is unchanged). -/
theorem C8_create_invalid (st : Store) (c : Student)
    (h : c.age = 0 ∨ c.age < 0 ∨ c.name = "" ∨ c.email = "") :
    createStudent st c = (.error .validationError, st) := by
  have hcond : c.name = "" ∨ c.email = "" ∨ c.age ≤ 0 := by
    rcases h with h | h | h | h
    · exact Or.inr (Or.inr (le_of_eq h))
    · exact Or.inr (Or.inr (le_of_lt h))
    · exact Or.inl h
    · exact Or.inr (Or.inl h)
  simp [createStudent, hcond]

/-- Witness for C8: creating a student with an empty name fails with the
validation error and leaves the store as it was. -/
theorem C8_create_invalid_witness :
    createStudent [((1 : Int), Student.mk 1 "ann" 20 "ann@mail")]
        (Student.mk 0 "" 5 "x@mail") =
      (.error .validationError, [((1 : Int), Student.mk 1 "ann" 20 "ann@mail")]) :=
  C8_create_invalid [((1 : Int), Student.mk 1 "ann" 20 "ann@mail")]
    (Student.mk 0 "" 5 "x@mail") (by decide)

/-- C9: `getStudent` returns an entity exactly when the id is a key of the
store (and then returns the stored entity), fails with the not-found error
exactly when the id is absent, and after a successful `deleteStudent` on an
id, `getStudent` on that id fails with the not-found error. -/
theorem C9_get_semantics (st : Store) (i : Int) :
    (∀ s, getStudent st i = .ok s ↔ lookupS st i = some s) ∧
    (getStudent st i = .error .notFoundError ↔ lookupS st i = none) ∧
    ∀ st', deleteStudent st i = (.ok (), st') →
      getStudent st' i = .error .notFoundError := by
  refine ⟨?_, ?_, ?_⟩
  · intro s
    cases hlk : lookupS st i <;> simp [getStudent, hlk]
  · cases hlk : lookupS st i <;> simp [getStudent, hlk]
  · intro st' h
    cases hlk : lookupS st i with
    | none => simp [deleteStudent, hlk] at h
    | some s₀ =>
      simp only [deleteStudent, hlk, Prod.mk.injEq, true_and] at h
      rw [← h]
      simp [getStudent, lookupS_eraseS_self]

/-- Witness for C9: after deleting id 1 from a singleton store, getting id 1
fails with the not-found error. -/
theorem C9_get_semantics_witness :
    getStudent ([] : Store) 1 = .error .notFoundError :=
  (C9_get_semantics [((1 : Int), Student.mk 1 "ann" 20 "ann@mail")] 1).2.2 []
    rfl

/-- C10: a successful `updateStudent` on id `i` leaves the binding of every
other key unchanged, and a successful `deleteStudent` on id `i` removes
exactly the binding of `i`: every other key is unchanged and `i` is gone. -/
theorem C10_frame (st : Store) (i k : Int) (hk : k ≠ i) :
    (∀ c u st', updateStudent st i c = (.ok u, st') →
        lookupS st' k = lookupS st k) ∧
    ∀ st', deleteStudent st i = (.ok (), st') →
      lookupS st' k = lookupS st k ∧ lookupS st' i = none := by
  constructor
  · intro c u st' h
    by_cases hval : c.name = "" ∨ c.email = "" ∨ c.age ≤ 0
    · simp [updateStudent, hval] at h
    · cases hlk : lookupS st i with
      | none => simp [updateStudent, hval, hlk] at h
      | some s₀ =>
        simp only [updateStudent, if_neg hval, hlk, Prod.mk.injEq,
          Except.ok.injEq] at h
        rw [← h.2]
        exact lookupS_insertS_ne st i k _ hk
  · intro st' h
    cases hlk : lookupS st i with
    | none => simp [deleteStudent, hlk] at h
    | some s₀ =>
      simp only [deleteStudent, hlk, Prod.mk.injEq, true_and] at h
      rw [← h]
      exact ⟨lookupS_eraseS_ne st i k hk, lookupS_eraseS_self st i⟩

/-- Witness for C10: deleting id 1 from a two-entry store leaves the binding
of key 2 unchanged and removes key 1. -/
theorem C10_frame_witness :
    lookupS [((2 : Int), Student.mk 2 "bob" 22 "bob@mail")] 2 =
        lookupS [((1 : Int), Student.mk 1 "ann" 20 "ann@mail"),
                 ((2 : Int), Student.mk 2 "bob" 22 "bob@mail")] 2 ∧
    lookupS [((2 : Int), Student.mk 2 "bob" 22 "bob@mail")] 1 = none :=
  (C10_frame [((1 : Int), Student.mk 1 "ann" 20 "ann@mail"),
              ((2 : Int), Student.mk 2 "bob" 22 "bob@mail")] 1 2
    (by decide)).2 [((2 : Int), Student.mk 2 "bob" 22 "bob@mail")] rfl

end StudentApi
